import Mathlib

/-!
Shallow embedding of `src/main.cpp`, a minimal TCP heartbeat monitor:
a `Server` that accepts connections, reads one message per connection and
appends it to a shared `log.txt` under a mutex, and a `Client` that in a
loop connects, sends `"<timestamp> <name>"`, sleeps and closes.

Wire data is modelled as `List Nat` (one `Nat` per byte, values < 256 in
all uses). Syscall outcomes (read failure, accept failure, log-open
failure, connect failure, ...) are injected as explicit parameters, since
they are decided by the host environment, not by this program.
-/

namespace Heartbeat

/-! ## Decimal rendering helpers (model of `std::put_time` / `std::setw`) -/

/-- Decimal digits of `n` as ASCII bytes, most significant first; the fuel
(always sufficient at `n + 1`) keeps the recursion structural. -/
def natToDigitsAux : Nat → Nat → List Nat
  | 0, _ => []
  | fuel + 1, n =>
    if n < 10 then [48 + n]
    else natToDigitsAux fuel (n / 10) ++ [48 + n % 10]

/-- The decimal digits of `n`, as ASCII bytes (most significant first). -/
def natToDigits (n : Nat) : List Nat := natToDigitsAux (n + 1) n

/-- Decimal rendering of `n` left-padded with ASCII `0` to width `w`
(model of `std::setfill` + `std::setw`, and of `strftime`'s `%m`/`%d`/... fields). -/
def pad (w n : Nat) : List Nat :=
  List.replicate (w - (natToDigits n).length) 48 ++ natToDigits n

/-- Read back a list of ASCII digit bytes as a number. -/
def decodeDigits (ds : List Nat) : Nat :=
  ds.foldl (fun a d => 10 * a + (d - 48)) 0

/-- ASCII decimal digit. -/
def isDigit (b : Nat) : Bool := 48 ≤ b && b ≤ 57

/-! ## Timestamps (`Client::GetCurrentTimestamp`, lines 158–165)

The clock instant is an epoch time `t` in milliseconds.  The code computes
`now_time = to_time_t(now)` (seconds, modelled as `t / 1000`) and
`ms = duration_cast<milliseconds>(now.time_since_epoch()) % 1000`
(modelled as `t % 1000`) from the same `now`.  `std::localtime` is libc,
an external collaborator: it is modelled as an arbitrary function `lt`
from epoch seconds to a broken-down time. -/

/-- Broken-down local time, with the fields as `put_time` prints them
(`year` is the full year, `mon` is 1-based). -/
structure Tm where
  year : Nat
  mon : Nat
  mday : Nat
  hour : Nat
  min : Nat
  sec : Nat
deriving DecidableEq, Repr

/-- Field ranges under which `put_time`'s rendering is the fixed-width
`YYYY-MM-DD HH:MM:SS` (four-digit year, two-digit other fields). -/
def ValidTm (tm : Tm) : Prop :=
  1000 ≤ tm.year ∧ tm.year ≤ 9999 ∧ 1 ≤ tm.mon ∧ tm.mon ≤ 12 ∧
  1 ≤ tm.mday ∧ tm.mday ≤ 31 ∧ tm.hour ≤ 23 ∧ tm.min ≤ 59 ∧ tm.sec ≤ 60

instance (tm : Tm) : Decidable (ValidTm tm) := by unfold ValidTm; infer_instance

/-- `put_time(tm, "%Y-%m-%d %H:%M:%S")`: bytes 45 `-`, 32 ` `, 58 `:`. -/
def formatTm (tm : Tm) : List Nat :=
  pad 4 tm.year ++ [45] ++ pad 2 tm.mon ++ [45] ++ pad 2 tm.mday ++ [32] ++
  pad 2 tm.hour ++ [58] ++ pad 2 tm.min ++ [58] ++ pad 2 tm.sec

/-- `Client::GetCurrentTimestamp`: seconds part from `localtime(t / 1000)`,
then `.` (46) and the milliseconds `t % 1000` zero-padded to width 3. -/
def GetCurrentTimestamp (lt : Nat → Tm) (t : Nat) : List Nat :=
  formatTm (lt (t / 1000)) ++ [46] ++ pad 3 (t % 1000)

/-! ## Messages (`Client::SendMessage`, lines 151–156) -/

/-- `message = GetCurrentTimestamp() + " " + name_` (32 is the space). -/
def encodeMessage (timestamp name : List Nat) : List Nat :=
  timestamp ++ [32] ++ name

/-- The exact bytes `send` is asked to transmit: `message.c_str()` with
`message.length()` bytes — no terminator, no newline. -/
def SendMessage (lt : Nat → Tm) (t : Nat) (name : List Nat) : List Nat :=
  encodeMessage (GetCurrentTimestamp lt t) name

/-- Names are non-empty printable tokens (printable ASCII, no NUL). -/
def ValidName (name : List Nat) : Prop :=
  name ≠ [] ∧ ∀ b ∈ name, 33 ≤ b ∧ b ≤ 126

instance (name : List Nat) : Decidable (ValidName name) := by
  unfold ValidName; infer_instance

/-! ## Server connection handler (`Server::HandleClient`, lines 86–104) -/

/-- `sizeof(buffer)` at line 88. -/
def BUFFER_SIZE : Nat := 1024

/-- Outcome of the single `read(client_fd, buffer, 1024)` call, decided by
the environment: `failure` is a strictly negative return, `delivered data`
a return of `data.length` bytes (the peer closing with no data delivers `[]`). -/
inductive ReadOutcome
  | failure
  | delivered (data : List Nat)
deriving DecidableEq, Repr

/-- `char buffer[1024] = {0}` after the read: the delivered bytes (the
kernel copies at most 1024) over the zero initialization. -/
def bufferAfterRead (data : List Nat) : List Nat :=
  data.take BUFFER_SIZE ++ List.replicate (BUFFER_SIZE - (data.take BUFFER_SIZE).length) 0

/-- `operator<<(ostream, const char*)` on a buffer that contains a NUL:
the bytes up to the first NUL.  This is the defined-behavior region
(`bytes_read < 1024` always leaves zero padding in the array); the
missing-terminator boundary is modelled by `cStringPastEnd` below. -/
def asCString (buf : List Nat) : List Nat := buf.takeWhile (fun b => b ≠ 0)

/-- `operator<<(ostream, const char*)` in full: if the array holds a NUL
the print stops there; if not (a 1024-byte read with no zero byte leaves
`buffer` unterminated) the read runs past the array into whatever bytes
sit next to `buffer` on the handler's stack — undefined behavior in the
source, modelled by making those adjacent bytes an explicit environment
parameter `residue`. -/
def cStringPastEnd (buf residue : List Nat) : List Nat :=
  if (0 : Nat) ∈ buf then buf.takeWhile (fun b => b ≠ 0)
  else buf ++ residue.takeWhile (fun b => b ≠ 0)

/-- What one `HandleClient` invocation did: the log file content after it,
the exception message it printed (if any), and whether `close(client_fd)`
ran. -/
structure HandlerResult where
  log : List Nat
  err : Option String
  closed : Bool
deriving DecidableEq, Repr

/-- `Server::HandleClient`: one read; `bytes_read < 0` throws; otherwise,
under the file mutex, open `log.txt` in append mode (`logOpenOk` is the
environment's verdict) and write `buffer` (as a C string) then `endl`.
The `catch` prints the message; `close(client_fd)` runs on every path. -/
def HandleClient (r : ReadOutcome) (logOpenOk : Bool) (log : List Nat) : HandlerResult :=
  match r with
  | .failure => ⟨log, some "Failed to read from client socket", true⟩
  | .delivered data =>
    if ((data.take BUFFER_SIZE).length : Int) < 0 then
      ⟨log, some "Failed to read from client socket", true⟩
    else if logOpenOk then
      ⟨log ++ asCString (bufferAfterRead data) ++ [10], none, true⟩
    else
      ⟨log, some "Failed to open log file", true⟩

/-- `Server::HandleClient` refined at the buffer boundary: the same
control flow as `HandleClient`, with the bytes adjacent to `buffer`
(`residue`) made explicit so that a read that fills all 1024 bytes with
no NUL — where line 99 reads past the array — is modelled rather than
silently truncated.  Wherever the buffer does contain a NUL the two
models agree (`handleClientPastEnd_eq_handleClient`). -/
def HandleClientPastEnd (r : ReadOutcome) (logOpenOk : Bool) (residue log : List Nat) :
    HandlerResult :=
  match r with
  | .failure => ⟨log, some "Failed to read from client socket", true⟩
  | .delivered data =>
    if ((data.take BUFFER_SIZE).length : Int) < 0 then
      ⟨log, some "Failed to read from client socket", true⟩
    else if logOpenOk then
      ⟨log ++ cStringPastEnd (bufferAfterRead data) residue ++ [10], none, true⟩
    else
      ⟨log, some "Failed to open log file", true⟩

/-! ## Server accept loop and startup (`Server::AcceptConnections` lines 73–84,
`Server::Start` lines 31–42, `main` lines 168–197)

The real loop is infinite; the model consumes a finite list of
environment-decided accept outcomes (an arbitrary prefix of the run). -/

/-- One `accept` return: negative (`failure`), or a connection whose later
read and log-open outcomes are `r` and `logOpenOk`. -/
inductive AcceptOutcome
  | failure
  | success (r : ReadOutcome) (logOpenOk : Bool)
deriving DecidableEq, Repr

def AcceptOutcome.isSuccess : AcceptOutcome → Bool
  | .failure => false
  | .success _ _ => true

/-- What the accept loop did over a prefix of outcomes. -/
structure AcceptLoopResult where
  log : List Nat
  stderr : List String
  handled : List HandlerResult
  acceptCalls : Nat
deriving DecidableEq, Repr

/-- `Server::AcceptConnections`: a failed `accept` prints
"Failed to accept connection" and `continue`s; a successful one spawns
`HandleClient` and keeps accepting.  (Handlers run detached; this claim-level
model runs them in accept order — byte-level interleaving of the log writes
is the separate mutex model below.) -/
def AcceptConnections (outs : List AcceptOutcome) (log : List Nat) : AcceptLoopResult :=
  match outs with
  | [] => ⟨log, [], [], 0⟩
  | .failure :: rest =>
    let res := AcceptConnections rest log
    ⟨res.log, "Failed to accept connection" :: res.stderr, res.handled, res.acceptCalls + 1⟩
  | .success r lo :: rest =>
    let h := HandleClient r lo log
    let res := AcceptConnections rest h.log
    ⟨res.log,
     (match h.err with
      | some e => ("Client handling error: " ++ e) :: res.stderr
      | none => res.stderr),
     h :: res.handled, res.acceptCalls + 1⟩

/-- The three setup stages that can throw in `Server::Start`. -/
inductive SetupError
  | socketFail
  | bindFail
  | listenFail
deriving DecidableEq, Repr

/-- Exception messages thrown by `CreateSocket` / `BindSocket` / `ListenOnSocket`. -/
def setupErrorMsg : SetupError → String
  | .socketFail => "Failed to create socket"
  | .bindFail => "Failed to bind"
  | .listenFail => "Failed to listen"

/-- Result of running the server process (after successful argument parsing). -/
structure ServerRun where
  exitCode : Nat
  stdout : List String
  stderr : List String
  loop : AcceptLoopResult
deriving DecidableEq, Repr

/-- `Server::Start`: on a setup failure the `catch` prints
"Server error: ..." and returns — the accept loop is never entered and is
not retried.  On success it prints the listening banner and runs the loop. -/
def ServerStart (port : Nat) (setup : Except SetupError (List AcceptOutcome))
    (log : List Nat) : List String × List String × AcceptLoopResult :=
  match setup with
  | .error e => ([], ["Server error: " ++ setupErrorMsg e], ⟨log, [], [], 0⟩)
  | .ok outs =>
    let res := AcceptConnections outs log
    (["Server listening on port " ++ toString port], res.stderr, res)

/-- `main` in server mode, after `server <port>` parsed: `server.Start()`
swallows its own `SocketException`, so `main` falls through to `return 0`. -/
def serverMain (port : Nat) (setup : Except SetupError (List AcceptOutcome))
    (log : List Nat) : ServerRun :=
  let (out, err, res) := ServerStart port setup log
  ⟨0, out, err, res⟩

/-! ## Port parsing in `main` (lines 176 and 181)

`static_cast<std::uint16_t>(std::stoi(argv[k]))`.  `std::stoi` on a numeral
whose value exceeds `int` throws `std::out_of_range`, which `main`'s
`catch (const std::exception&)` turns into exit status 1; an in-range value
is then narrowed to `uint16_t`, i.e. reduced modulo 2^16. -/

def INT_MIN : Int := -(2 ^ 31)
def INT_MAX : Int := 2 ^ 31 - 1

/-- `std::stoi` on the numeral with value `n`. -/
def stoi (n : Int) : Except String Int :=
  if INT_MIN ≤ n ∧ n ≤ INT_MAX then .ok n else .error "stoi: out of range"

/-- `static_cast<std::uint16_t>`: conversion to unsigned is reduction
modulo 2^16 (well-defined in C++ for any `int` value). -/
def toUInt16 (n : Int) : Nat := (n % 65536).toNat

/-- The port expression shared by the `server` and `client` branches of `main`. -/
def parsePort (n : Int) : Except String Nat := (stoi n).map toUInt16

/-! ## Client (`Client::Start` lines 111–122, `CreateSocket` 129–135,
`ConnectToServer` 137–149, `SendMessage` 151–156)

Each loop iteration's observable actions, in program order.  The socket is
a scope-bound handle (`unique_ptr` with a close deleter) local to the loop
body, so its close runs when the iteration's scope ends — after
`sleep_for`, which is the last statement of the body — or during unwinding
when an exception is thrown. -/

inductive ClientEvent
  | socketCreated
  | connected
  | timestampFormatted (t : Nat)
  | messageSent (msg : List Nat)
  | slept (seconds : Nat)
  | connectionClosed
deriving DecidableEq, Repr

/-- Environment verdict for one loop iteration: which syscall, if any, fails. -/
inductive CycleOutcome
  | sockFail
  | connectFail
  | sendFail
  | ok
deriving DecidableEq, Repr

def CycleOutcome.isFailure : CycleOutcome → Bool
  | .ok => false
  | _ => true

/-- One iteration of `Client::Start`'s `while (true)` body at clock instant
`t`: create socket, connect, build `"<timestamp> <name>"` (the timestamp is
formatted inside `SendMessage`), send, sleep, and only then close as the
iteration scope ends.  A failure throws: the events up to it happen, the
socket (if created) is closed by unwinding, and the exception message is
returned. -/
def clientCycle (lt : Nat → Tm) (name : List Nat) (period : Nat) (t : Nat) :
    CycleOutcome → List ClientEvent × Option String
  | .sockFail => ([], some "Socket creation error")
  | .connectFail => ([.socketCreated, .connectionClosed], some "Connection failed")
  | .sendFail =>
    ([.socketCreated, .connected, .timestampFormatted t, .connectionClosed],
     some "Failed to send message")
  | .ok =>
    ([.socketCreated, .connected, .timestampFormatted t,
      .messageSent (SendMessage lt t name), .slept period, .connectionClosed],
     none)

/-- `Client::Start` over a finite prefix of iteration verdicts (each paired
with that iteration's clock instant): the `try` block wraps the whole loop,
so the first exception ends it; later verdicts are never reached.  Returns
the event trace and the "Client error: ..." line printed by the `catch`. -/
def clientStart (lt : Nat → Tm) (name : List Nat) (period : Nat) :
    List (CycleOutcome × Nat) → List ClientEvent × Option String
  | [] => ([], none)
  | (o, t) :: rest =>
    match (clientCycle lt name period t o).2 with
    | some e => ((clientCycle lt name period t o).1, some ("Client error: " ++ e))
    | none =>
      ((clientCycle lt name period t o).1 ++ (clientStart lt name period rest).1,
       (clientStart lt name period rest).2)

/-! ## Timestamp shape

A decidable rendering of the spec's `YYYY-MM-DD HH:MM:SS.mmm` pattern:
code 0 marks a decimal-digit slot, any other code is a literal byte. -/

def shapeCodes : List Nat :=
  List.replicate 4 0 ++ [45] ++ List.replicate 2 0 ++ [45] ++ List.replicate 2 0 ++ [32] ++
  List.replicate 2 0 ++ [58] ++ List.replicate 2 0 ++ [58] ++ List.replicate 2 0 ++ [46] ++
  List.replicate 3 0

/-- One position matches its shape code. -/
def shapeOK (p : Nat × Nat) : Bool :=
  if p.1 = 0 then isDigit p.2 else decide (p.2 = p.1)

/-- `s` is exactly 23 bytes laid out as `dddd-dd-dd dd:dd:dd.ddd`. -/
def matchesShape (s : List Nat) : Bool :=
  decide (s.length = 23) && (shapeCodes.zip s).all shapeOK

/-! ## Byte-level model of the mutex-serialized log sink (lines 94–99)

`HandleClient` takes `file_mutex_`, opens `log.txt` in append mode, streams
the line and closes the file (the `ofstream` destructor runs before the
`lock_guard` destructor), so a handler's whole open-write-close cycle holds
the lock.  The model makes each byte written a separate step so that
interleaving, were the lock not respected, would be expressible: handler
`i` must `acquire` the free lock, may then `write` its line one byte at a
time, and `release`s only after the last byte. -/

/-- Where handler `i` stands with respect to the log sink. -/
inductive HPhase
  | idle
  | writing (k : Nat)
  | done
deriving DecidableEq, Repr

/-- The line handler `i` appends: its message then `endl`. -/
def lineOf (msg : List Nat) : List Nat := msg ++ [10]

/-- Shared state: each handler's phase and the bytes of `log.txt`. -/
structure SinkState (n : Nat) where
  phase : Fin n → HPhase
  log : List Nat

/-- One scheduler step of the `n` concurrent handlers writing `msgs`. -/
inductive SinkStep {n : Nat} (msgs : Fin n → List Nat) : SinkState n → SinkState n → Prop
  | acquire (s : SinkState n) (i : Fin n) :
      s.phase i = .idle →
      (∀ j k, s.phase j ≠ .writing k) →
      SinkStep msgs s ⟨Function.update s.phase i (.writing 0), s.log⟩
  | write (s : SinkState n) (i : Fin n) (k : Nat) (hk : k < (lineOf (msgs i)).length) :
      s.phase i = .writing k →
      SinkStep msgs s
        ⟨Function.update s.phase i (.writing (k + 1)),
         s.log ++ [(lineOf (msgs i)).get ⟨k, hk⟩]⟩
  | release (s : SinkState n) (i : Fin n) :
      s.phase i = .writing (lineOf (msgs i)).length →
      SinkStep msgs s ⟨Function.update s.phase i .done, s.log⟩

/-- The sink invariant: the log is the complete lines of the finished
handlers, in their completion order, followed by the lock holder's partial
line; at most one handler holds the lock. -/
def SinkInv {n : Nat} (msgs : Fin n → List Nat) (s : SinkState n) : Prop :=
  ∃ order : List (Fin n),
    order.Nodup ∧
    (∀ i, s.phase i = .done ↔ i ∈ order) ∧
    ((∃ w k, s.phase w = .writing k ∧ k ≤ (lineOf (msgs w)).length ∧
        (∀ j k2, s.phase j = .writing k2 → j = w) ∧
        s.log = (order.map fun i => lineOf (msgs i)).flatten ++ (lineOf (msgs w)).take k)
     ∨ ((∀ j k, s.phase j ≠ .writing k) ∧
        s.log = (order.map fun i => lineOf (msgs i)).flatten))

/-! ## Sample inputs for concrete evaluations -/

/-- A sample broken-down local time. -/
def tmSample : Tm := ⟨2024, 5, 17, 12, 34, 56⟩

/-- A sample `localtime`: a constant clock. -/
def ltSample : Nat → Tm := fun _ => tmSample

/-- A single one-byte message for the sink model. -/
def msgs1 : Fin 1 → List Nat := fun _ => [104]

/-- A 1000-byte printable name; with the 23-byte timestamp and the space
it encodes to a message of exactly 1024 bytes. -/
def name1000 : List Nat := List.replicate 1000 65

/-! ## Lemmas: decimal rendering -/

theorem natToDigitsAux_mem : ∀ fuel n, n < fuel → ∀ b ∈ natToDigitsAux fuel n, 48 ≤ b ∧ b ≤ 57 := by
  intro fuel
  induction fuel with
  | zero => intro n hn; omega
  | succ fuel ih =>
    intro n hn b hb
    rw [natToDigitsAux] at hb
    split at hb
    · simp only [List.mem_singleton] at hb
      omega
    · rename_i h
      rw [List.mem_append] at hb
      rcases hb with hb | hb
      · have hdiv : n / 10 < n := Nat.div_lt_self (by omega) (by omega)
        exact ih (n / 10) (by omega) b hb
      · simp only [List.mem_singleton] at hb
        have := Nat.mod_lt n (show 0 < 10 by omega)
        omega

theorem natToDigits_mem (n : Nat) : ∀ b ∈ natToDigits n, 48 ≤ b ∧ b ≤ 57 :=
  natToDigitsAux_mem (n + 1) n (Nat.lt_succ_self n)

theorem natToDigitsAux_length :
    ∀ w fuel n, n < fuel → n < 10 ^ w → 1 ≤ w → (natToDigitsAux fuel n).length ≤ w := by
  intro w
  induction w with
  | zero => intro fuel n _ _ hw; omega
  | succ w ih =>
    intro fuel n hfuel hn _
    cases fuel with
    | zero => omega
    | succ fuel =>
      rw [natToDigitsAux]
      split
      · simp
      · rename_i h
        rw [List.length_append]
        have hdiv : n / 10 < n := Nat.div_lt_self (by omega) (by omega)
        have hpow : n / 10 < 10 ^ w := by
          rw [Nat.div_lt_iff_lt_mul (by omega)]
          calc n < 10 ^ (w + 1) := hn
          _ = 10 ^ w * 10 := by ring
        rcases Nat.eq_zero_or_pos w with hw | hw
        · subst hw
          rw [pow_zero] at hpow
          omega
        · have := ih fuel (n / 10) (by omega) hpow hw
          simp only [List.length_singleton]
          omega

theorem natToDigits_length (w n : Nat) (hn : n < 10 ^ w) (hw : 1 ≤ w) :
    (natToDigits n).length ≤ w :=
  natToDigitsAux_length w (n + 1) n (Nat.lt_succ_self n) hn hw

theorem decodeDigits_concat (l : List Nat) (d : Nat) :
    decodeDigits (l ++ [d]) = 10 * decodeDigits l + (d - 48) := by
  simp [decodeDigits, List.foldl_append]

theorem natToDigitsAux_decode : ∀ fuel n, n < fuel → decodeDigits (natToDigitsAux fuel n) = n := by
  intro fuel
  induction fuel with
  | zero => intro n hn; omega
  | succ fuel ih =>
    intro n hn
    rw [natToDigitsAux]
    split
    · simp [decodeDigits]
    · rename_i h
      have hdiv : n / 10 < n := Nat.div_lt_self (by omega) (by omega)
      rw [decodeDigits_concat, ih (n / 10) (by omega)]
      omega

theorem natToDigits_decode (n : Nat) : decodeDigits (natToDigits n) = n :=
  natToDigitsAux_decode (n + 1) n (Nat.lt_succ_self n)

theorem decodeDigits_replicate_zero (k : Nat) (l : List Nat) :
    decodeDigits (List.replicate k 48 ++ l) = decodeDigits l := by
  induction k with
  | zero => simp
  | succ k ih =>
    rw [List.replicate_succ, List.cons_append]
    have step : decodeDigits (48 :: (List.replicate k 48 ++ l)) =
        List.foldl (fun a d => 10 * a + (d - 48)) 0 (List.replicate k 48 ++ l) := rfl
    rw [step]
    exact ih

theorem pad_decode (w n : Nat) : decodeDigits (pad w n) = n := by
  rw [pad, decodeDigits_replicate_zero, natToDigits_decode]

theorem pad_length (w n : Nat) (hn : n < 10 ^ w) (hw : 1 ≤ w) : (pad w n).length = w := by
  have := natToDigits_length w n hn hw
  rw [pad, List.length_append, List.length_replicate]
  omega

theorem pad_mem (w n : Nat) : ∀ b ∈ pad w n, 48 ≤ b ∧ b ≤ 57 := by
  intro b hb
  rw [pad, List.mem_append] at hb
  rcases hb with hb | hb
  · have := List.eq_of_mem_replicate hb
    omega
  · exact natToDigits_mem n b hb

/-! ## Lemmas: timestamp bytes and C-string round-trip -/

theorem formatTm_mem (tm : Tm) : ∀ b ∈ formatTm tm, 32 ≤ b ∧ b ≤ 58 := by
  intro b hb
  simp only [formatTm, List.mem_append, List.mem_singleton] at hb
  rcases hb with ((((((((((hb | hb) | hb) | hb) | hb) | hb) | hb) | hb) | hb) | hb) | hb) <;>
    first
      | (have hp := pad_mem _ _ b hb; omega)
      | omega

theorem timestamp_mem (lt : Nat → Tm) (t : Nat) :
    ∀ b ∈ GetCurrentTimestamp lt t, 32 ≤ b ∧ b ≤ 58 := by
  intro b hb
  simp only [GetCurrentTimestamp, List.mem_append, List.mem_singleton] at hb
  rcases hb with (hb | hb) | hb
  · exact formatTm_mem _ b hb
  · omega
  · have := pad_mem _ _ b hb
    omega

theorem sendMessage_mem (lt : Nat → Tm) (t : Nat) (name : List Nat) (hname : ValidName name) :
    ∀ b ∈ SendMessage lt t name, 32 ≤ b ∧ b ≤ 126 := by
  intro b hb
  simp only [SendMessage, encodeMessage, List.mem_append, List.mem_singleton] at hb
  rcases hb with (hb | hb) | hb
  · have := timestamp_mem lt t b hb
    omega
  · omega
  · have := hname.2 b hb
    omega

theorem takeWhile_append_all (p : Nat → Bool) (l₁ l₂ : List Nat) (h : ∀ a ∈ l₁, p a = true) :
    (l₁ ++ l₂).takeWhile p = l₁ ++ l₂.takeWhile p := by
  induction l₁ with
  | nil => simp
  | cons a l ih =>
    rw [List.cons_append, List.takeWhile_cons, h a (by simp)]
    rw [ih fun x hx => h x (by simp [hx])]
    rfl

theorem takeWhile_replicate_zero (k : Nat) :
    (List.replicate k 0).takeWhile (fun b => b ≠ 0) = ([] : List Nat) := by
  cases k with
  | zero => simp
  | succ k => simp [List.replicate_succ, List.takeWhile_cons]

/-- The logged C string is exactly the received bytes, when they fit the
buffer and contain no NUL. -/
theorem asCString_bufferAfterRead (data : List Nat) (hlen : data.length ≤ BUFFER_SIZE)
    (hz : ∀ b ∈ data, b ≠ 0) : asCString (bufferAfterRead data) = data := by
  rw [bufferAfterRead, List.take_of_length_le hlen, asCString]
  rw [takeWhile_append_all _ _ _ fun a ha => by simpa using hz a ha]
  rw [takeWhile_replicate_zero, List.append_nil]

/-- Unfolding of `HandleClient` on a successful read: the dead
`bytes_read < 0` test is false because the length cast is nonnegative. -/
theorem handleClient_delivered (data log : List Nat) (lo : Bool) :
    HandleClient (.delivered data) lo log =
      if lo then ⟨log ++ asCString (bufferAfterRead data) ++ [10], none, true⟩
      else ⟨log, some "Failed to open log file", true⟩ := by
  unfold HandleClient
  change (if ((List.take BUFFER_SIZE data).length : Int) < 0 then
      ({ log := log, err := some "Failed to read from client socket", closed := true } : HandlerResult)
    else if lo = true then
      { log := log ++ asCString (bufferAfterRead data) ++ [10], err := none, closed := true }
    else { log := log, err := some "Failed to open log file", closed := true }) = _
  rw [if_neg (not_lt.mpr (Int.natCast_nonneg _))]

theorem handleClient_closed (r : ReadOutcome) (lo : Bool) (log : List Nat) :
    (HandleClient r lo log).closed = true := by
  cases r with
  | failure => rfl
  | delivered data =>
    rw [handleClient_delivered]
    cases lo <;> rfl

/-- Unfolding of the boundary-refined handler on a successful read. -/
theorem handleClientPastEnd_delivered (data residue log : List Nat) (lo : Bool) :
    HandleClientPastEnd (.delivered data) lo residue log =
      if lo then ⟨log ++ cStringPastEnd (bufferAfterRead data) residue ++ [10], none, true⟩
      else ⟨log, some "Failed to open log file", true⟩ := by
  unfold HandleClientPastEnd
  change (if ((List.take BUFFER_SIZE data).length : Int) < 0 then
      ({ log := log, err := some "Failed to read from client socket", closed := true } : HandlerResult)
    else if lo = true then
      { log := log ++ cStringPastEnd (bufferAfterRead data) residue ++ [10], err := none,
        closed := true }
    else { log := log, err := some "Failed to open log file", closed := true }) = _
  rw [if_neg (not_lt.mpr (Int.natCast_nonneg _))]

/-- When the array holds a terminator, the past-the-end read never
happens and the C-string print is the plain truncation. -/
theorem cStringPastEnd_of_mem_zero (buf residue : List Nat) (h : (0 : Nat) ∈ buf) :
    cStringPastEnd buf residue = asCString buf := by
  rw [cStringPastEnd, if_pos h]
  rfl

/-- A read of strictly fewer than 1024 bytes leaves zero padding in the
buffer, so a terminator is present. -/
theorem zero_mem_bufferAfterRead (data : List Nat) (hlen : data.length < BUFFER_SIZE) :
    (0 : Nat) ∈ bufferAfterRead data := by
  rw [bufferAfterRead]
  apply List.mem_append_right
  apply List.mem_replicate.mpr
  refine ⟨?_, rfl⟩
  have h1 : (data.take BUFFER_SIZE).length = data.length := by
    rw [List.length_take]
    omega
  omega

/-- Wherever the buffer contains a NUL, the boundary-refined handler and
the plain handler agree, for every content of the adjacent memory. -/
theorem handleClientPastEnd_eq_handleClient (data residue log : List Nat) (lo : Bool)
    (h : (0 : Nat) ∈ bufferAfterRead data) :
    HandleClientPastEnd (.delivered data) lo residue log =
      HandleClient (.delivered data) lo log := by
  rw [handleClientPastEnd_delivered, handleClient_delivered,
    cStringPastEnd_of_mem_zero _ residue h]

/-! ## Lemmas: timestamp shape -/

theorem zip_all_digit_segment (k : Nat) (ds restCodes rest : List Nat) (hlen : ds.length = k)
    (hd : ∀ b ∈ ds, 48 ≤ b ∧ b ≤ 57) :
    ((List.replicate k 0 ++ restCodes).zip (ds ++ rest)).all shapeOK =
      (restCodes.zip rest).all shapeOK := by
  subst hlen
  induction ds with
  | nil => simp
  | cons d ds ih =>
    rw [List.length_cons, List.replicate_succ, List.cons_append, List.cons_append,
      List.zip_cons_cons, List.all_cons]
    have hdig : shapeOK (0, d) = true := by
      have := hd d (by simp)
      simp [shapeOK, isDigit]
      omega
    rw [hdig, Bool.true_and, ih fun b hb => hd b (by simp [hb])]

theorem zip_all_sep_segment (c : Nat) (restCodes rest : List Nat) (hc : shapeOK (c, c) = true) :
    (([c] ++ restCodes).zip ([c] ++ rest)).all shapeOK = (restCodes.zip rest).all shapeOK := by
  rw [List.singleton_append, List.singleton_append, List.zip_cons_cons, List.all_cons, hc,
    Bool.true_and]

theorem zip_all_digit_final (k : Nat) (ds : List Nat) (hlen : ds.length = k)
    (hd : ∀ b ∈ ds, 48 ≤ b ∧ b ≤ 57) :
    ((List.replicate k 0).zip ds).all shapeOK = true := by
  have h := zip_all_digit_segment k ds [] [] hlen hd
  rw [List.append_nil, List.append_nil] at h
  rw [h]
  rfl

/-! ## Lemmas: the log-sink invariant is inductive -/

theorem sinkInv_init (n : Nat) (msgs : Fin n → List Nat) :
    SinkInv msgs ⟨fun _ => .idle, []⟩ := by
  refine ⟨[], List.nodup_nil, ?_, Or.inr ⟨?_, rfl⟩⟩
  · intro i
    constructor
    · intro h
      exact HPhase.noConfusion h
    · intro h
      exact absurd h (List.not_mem_nil i)
  · intro j k h
    exact HPhase.noConfusion h

theorem sinkInv_step {n : Nat} (msgs : Fin n → List Nat) {s s2 : SinkState n}
    (hst : SinkStep msgs s s2) (hinv : SinkInv msgs s) : SinkInv msgs s2 := by
  obtain ⟨order, hnd, hdn, hrest⟩ := hinv
  cases hst with
  | acquire i hidle hfree =>
    rcases hrest with ⟨w, k, hw, -, -, -⟩ | ⟨hfree2, hlog⟩
    · exact absurd hw (hfree w k)
    · refine ⟨order, hnd, ?_, Or.inl ⟨i, 0, Function.update_same i _ _, Nat.zero_le _, ?_, ?_⟩⟩
      · intro j
        by_cases hj : j = i
        · subst hj
          simp only [Function.update_same]
          constructor
          · intro h
            exact HPhase.noConfusion h
          · intro hm
            have hd2 := (hdn j).mpr hm
            rw [hidle] at hd2
            exact HPhase.noConfusion hd2
        · simp only [Function.update_noteq hj]
          exact hdn j
      · intro j k2 hj
        by_cases hji : j = i
        · exact hji
        · have hj2 : Function.update s.phase i (HPhase.writing 0) j = HPhase.writing k2 := hj
          rw [Function.update_noteq hji] at hj2
          exact absurd hj2 (hfree2 j k2)
      · simp only [List.take_zero, List.append_nil]
        exact hlog
  | write i k hk hwri =>
    rcases hrest with ⟨w, k2, hw, hk2, huniq, hlog⟩ | ⟨hfree2, hlog⟩
    · have hiw : i = w := huniq i k hwri
      subst hiw
      have hk2k : k = k2 := by
        rw [hwri] at hw
        injection hw
      subst hk2k
      refine ⟨order, hnd, ?_,
        Or.inl ⟨i, k + 1, Function.update_same i _ _, by omega, ?_, ?_⟩⟩
      · intro j
        by_cases hj : j = i
        · subst hj
          simp only [Function.update_same]
          constructor
          · intro h
            exact HPhase.noConfusion h
          · intro hm
            have hd2 := (hdn j).mpr hm
            rw [hwri] at hd2
            exact HPhase.noConfusion hd2
        · simp only [Function.update_noteq hj]
          exact hdn j
      · intro j k3 hj
        by_cases hji : j = i
        · exact hji
        · have hj2 : Function.update s.phase i (HPhase.writing (k + 1)) j = HPhase.writing k3 := hj
          rw [Function.update_noteq hji] at hj2
          exact huniq j k3 hj2
      · rw [hlog, List.append_assoc]
        rw [List.take_succ, List.getElem?_eq_getElem hk]
        simp [List.get_eq_getElem]
    · exact absurd hwri (hfree2 i k)
  | release i hwri =>
    rcases hrest with ⟨w, k2, hw, hk2, huniq, hlog⟩ | ⟨hfree2, hlog⟩
    · have hiw : i = w := huniq i _ hwri
      subst hiw
      have hk2k : k2 = (lineOf (msgs i)).length := by
        rw [hwri] at hw
        injection hw with h
        exact h.symm
      subst hk2k
      have hninp : i ∉ order := by
        intro hm
        have hd2 := (hdn i).mpr hm
        rw [hwri] at hd2
        exact HPhase.noConfusion hd2
      refine ⟨order ++ [i], ?_, ?_, Or.inr ⟨?_, ?_⟩⟩
      · simp [List.nodup_append, hnd, hninp]
      · intro j
        by_cases hj : j = i
        · subst hj
          simp only [Function.update_same]
          simp
        · simp only [Function.update_noteq hj]
          rw [hdn j]
          simp [hj]
      · intro j k3 hj
        by_cases hji : j = i
        · subst hji
          have hj2 : Function.update s.phase j HPhase.done j = HPhase.writing k3 := hj
          rw [Function.update_same] at hj2
          exact HPhase.noConfusion hj2
        · have hj2 : Function.update s.phase i HPhase.done j = HPhase.writing k3 := hj
          rw [Function.update_noteq hji] at hj2
          exact absurd (huniq j k3 hj2) hji
      · rw [hlog, List.take_length]
        simp
    · exact absurd hwri (hfree2 i _)

theorem sinkInv_reachable {n : Nat} (msgs : Fin n → List Nat) {s s2 : SinkState n}
    (h : Relation.ReflTransGen (SinkStep msgs) s s2) (hinv : SinkInv msgs s) :
    SinkInv msgs s2 := by
  induction h with
  | refl => exact hinv
  | tail _ hstep ih => exact sinkInv_step msgs hstep ih

/-! ## Claims -/

/-- C8: the connection handler closes the accepted connection's socket on
every exit path — after a successful read-and-append, after a `ReadError`,
and after a `LogWriteError` alike. -/
theorem claim_C8 (r : ReadOutcome) (lo : Bool) (log : List Nat) :
    (HandleClient r lo log).closed = true :=
  handleClient_closed r lo log

/-- C9: a peer that closes without sending data makes `read` return zero
bytes, which `HandleClient` treats as success — an empty line is still
appended to the log; only a strictly negative read result raises
`ReadError`. -/
theorem claim_C9 (log : List Nat) :
    HandleClient (.delivered []) true log = ⟨log ++ [10], none, true⟩ ∧
    HandleClient .failure true log =
      ⟨log, some "Failed to read from client socket", true⟩ := by
  constructor
  · rw [handleClient_delivered, if_pos rfl]
    have hempty : asCString (bufferAfterRead []) = [] := by
      rw [bufferAfterRead, List.take_nil, List.nil_append]
      exact takeWhile_replicate_zero _
    rw [hempty, List.append_nil]
  · rfl

/-- C10: the port argument of both the `server` and `client` entry points
is parsed as a signed `int` and narrowed to `uint16_t`: every numeral
representable as `int` is accepted, reduced modulo 2^16, never rejected —
including values outside `[0, 65535]`. -/
theorem claim_C10 (v : Int) (h1 : INT_MIN ≤ v) (h2 : v ≤ INT_MAX) :
    parsePort v = .ok ((v % 65536).toNat) ∧ (v % 65536).toNat < 65536 := by
  constructor
  · rw [parsePort, stoi, if_pos ⟨h1, h2⟩]
    rfl
  · omega

theorem claim_C10_witness :
    (INT_MIN ≤ (70000 : Int) ∧ (70000 : Int) ≤ INT_MAX) ∧
    (parsePort 70000 = .ok (((70000 : Int) % 65536).toNat) ∧
      ((70000 : Int) % 65536).toNat < 65536) :=
  ⟨⟨by decide, by decide⟩, claim_C10 70000 (by decide) (by decide)⟩

/-- C2 fails as stated: on a setup failure `Server::Start` catches the
exception itself and returns, so `main` falls through to `return 0` — the
process exit status is 0, not 1. -/
theorem claim_C2_counterexample :
    (serverMain 8080 (.error .socketFail) []).exitCode = 0 ∧
    (serverMain 8080 (.error .socketFail) []).exitCode ≠ 1 :=
  ⟨rfl, by decide⟩

/-- C2 (amended): if server socket setup fails at any stage, the server
prints `Server error: <message>` to standard error, never enters the
accept loop and does not retry, and the process exits with status 0. -/
theorem claim_C2 (port : Nat) (e : SetupError) (log : List Nat) :
    serverMain port (.error e) log =
      ⟨0, [], ["Server error: " ++ setupErrorMsg e], ⟨log, [], [], 0⟩⟩ :=
  rfl

/-- C4 fails as stated: in a successful iteration the socket's scope is the
whole loop body, so the sleep (the body's last statement) happens before
the close — the events are not in the claimed create, connect, format,
send, close, sleep order. -/
theorem claim_C4_counterexample :
    (clientCycle ltSample [65] 1 0 .ok).1 ≠
      [.socketCreated, .connected, .timestampFormatted 0,
       .messageSent (SendMessage ltSample 0 [65]), .connectionClosed, .slept 1] := by
  decide

/-- C4 (amended): each successful client iteration performs create socket,
connect, format timestamp, send, sleep, and then close — the connection is
closed after the sleep, when the iteration's scope ends, and before the
next iteration's socket is created. -/
theorem claim_C4 (lt : Nat → Tm) (name : List Nat) (period t : Nat)
    (rest : List (CycleOutcome × Nat)) :
    (clientCycle lt name period t .ok).1 =
      [.socketCreated, .connected, .timestampFormatted t,
       .messageSent (SendMessage lt t name), .slept period, .connectionClosed] ∧
    (clientCycle lt name period t .ok).2 = none ∧
    (clientStart lt name period ((.ok, t) :: rest)).1 =
      (clientCycle lt name period t .ok).1 ++ (clientStart lt name period rest).1 :=
  ⟨rfl, rfl, rfl⟩

/-- C5: the server never terminates on per-connection errors — a failed
`accept` is logged and the loop continues, and per-handler errors are
recovered locally with the connection closed, so every outcome of the
prefix is processed: the number of `accept` calls equals the prefix
length, one handler runs per successful `accept`, and every handler
closed its connection. -/
theorem claim_C5 (outs : List AcceptOutcome) (log : List Nat) :
    (AcceptConnections outs log).acceptCalls = outs.length ∧
    (AcceptConnections outs log).handled.length = outs.countP AcceptOutcome.isSuccess ∧
    ∀ h ∈ (AcceptConnections outs log).handled, h.closed = true := by
  induction outs generalizing log with
  | nil =>
    exact ⟨rfl, rfl, fun h hm => absurd hm (List.not_mem_nil h)⟩
  | cons o rest ih =>
    cases o with
    | failure =>
      obtain ⟨h1, h2, h3⟩ := ih log
      refine ⟨?_, ?_, ?_⟩
      · show (AcceptConnections rest log).acceptCalls + 1 = rest.length + 1
        omega
      · show (AcceptConnections rest log).handled.length = _
        rw [h2, List.countP_cons]
        rfl
      · exact h3
    | success r lo =>
      obtain ⟨h1, h2, h3⟩ := ih (HandleClient r lo log).log
      refine ⟨?_, ?_, ?_⟩
      · show (AcceptConnections rest (HandleClient r lo log).log).acceptCalls + 1 = rest.length + 1
        omega
      · show (HandleClient r lo log :: (AcceptConnections rest (HandleClient r lo log).log).handled).length = _
        rw [List.length_cons, h2, List.countP_cons]
        rfl
      · intro h hm
        have hm1 : h ∈ HandleClient r lo log ::
            (AcceptConnections rest (HandleClient r lo log).log).handled := hm
        rcases List.mem_cons.mp hm1 with hm2 | hm2
        · subst hm2
          exact handleClient_closed r lo log
        · exact h3 h hm2

/-- C3: in `Client::Start` the `try` block wraps the whole send loop, so a
single failure at socket creation, connect, or send ends it: the run over
`pre ++ (o, t) :: rest` with `o` a failure equals the run over
`pre ++ [(o, t)]` — nothing in `rest` is ever attempted — and the loop has
terminated with an error. -/
theorem claim_C3 (lt : Nat → Tm) (name : List Nat) (period : Nat)
    (pre rest : List (CycleOutcome × Nat)) (o : CycleOutcome) (t : Nat)
    (hfail : o.isFailure = true) :
    clientStart lt name period (pre ++ (o, t) :: rest) =
      clientStart lt name period (pre ++ [(o, t)]) ∧
    (clientStart lt name period (pre ++ (o, t) :: rest)).2.isSome = true := by
  induction pre with
  | nil =>
    cases o with
    | sockFail => exact ⟨rfl, rfl⟩
    | connectFail => exact ⟨rfl, rfl⟩
    | sendFail => exact ⟨rfl, rfl⟩
    | ok => exact absurd hfail (by decide)
  | cons c pre ih =>
    obtain ⟨o2, t2⟩ := c
    rw [List.cons_append, List.cons_append]
    cases o2 with
    | sockFail => exact ⟨rfl, rfl⟩
    | connectFail => exact ⟨rfl, rfl⟩
    | sendFail => exact ⟨rfl, rfl⟩
    | ok =>
      obtain ⟨ih1, ih2⟩ := ih
      constructor
      · show ((clientCycle lt name period t2 .ok).1 ++
              (clientStart lt name period (pre ++ (o, t) :: rest)).1,
             (clientStart lt name period (pre ++ (o, t) :: rest)).2) =
            ((clientCycle lt name period t2 .ok).1 ++
              (clientStart lt name period (pre ++ [(o, t)])).1,
             (clientStart lt name period (pre ++ [(o, t)])).2)
        rw [ih1]
      · show (clientStart lt name period (pre ++ (o, t) :: rest)).2.isSome = true
        exact ih2

theorem claim_C3_witness :
    CycleOutcome.isFailure .connectFail = true ∧
    (clientStart ltSample [65] 1 ([(.ok, 0)] ++ (.connectFail, 1) :: [(.ok, 2)]) =
        clientStart ltSample [65] 1 ([(.ok, 0)] ++ [(.connectFail, 1)]) ∧
      (clientStart ltSample [65] 1 ([(.ok, 0)] ++ (.connectFail, 1) :: [(.ok, 2)])).2.isSome = true) :=
  ⟨rfl, claim_C3 ltSample [65] 1 [(.ok, 0)] [(.ok, 2)] .connectFail 1 rfl⟩

/-- C1 fails as stated at the buffer boundary: a valid 1024-byte message
(23-byte timestamp, space, 1000-byte name) fills `buffer` completely, the
read leaves no NUL terminator, and `log_file << buffer` reads past the
array — with a nonzero byte adjacent to the buffer the logged line is not
the sent message, so the byte-for-byte round-trip is not guaranteed for
every message that fits the buffer. -/
theorem claim_C1_counterexample :
    ValidName name1000 ∧
    (SendMessage ltSample 0 name1000).length = BUFFER_SIZE ∧
    HandleClientPastEnd (.delivered (SendMessage ltSample 0 name1000)) true [42, 0] [] ≠
      ⟨SendMessage ltSample 0 name1000 ++ [10], none, true⟩ := by
  have hname : ValidName name1000 := by
    constructor
    · intro h
      have h2 := congrArg List.length h
      rw [name1000, List.length_replicate, List.length_nil] at h2
      omega
    · intro b hb
      rw [name1000] at hb
      have := List.eq_of_mem_replicate hb
      omega
  have hts : (GetCurrentTimestamp ltSample 0).length = 23 := by decide
  have hlen : (SendMessage ltSample 0 name1000).length = BUFFER_SIZE := by
    simp only [SendMessage, encodeMessage, List.length_append, hts, name1000,
      List.length_replicate, List.length_singleton, BUFFER_SIZE]
  refine ⟨hname, hlen, ?_⟩
  have hbytes := sendMessage_mem ltSample 0 name1000 hname
  have hbuf : bufferAfterRead (SendMessage ltSample 0 name1000) =
      SendMessage ltSample 0 name1000 := by
    rw [bufferAfterRead, List.take_of_length_le (le_of_eq hlen), hlen]
    simp
  have hnz : (0 : Nat) ∉ bufferAfterRead (SendMessage ltSample 0 name1000) := by
    rw [hbuf]
    intro hmem
    have := hbytes 0 hmem
    omega
  have hcs : cStringPastEnd (bufferAfterRead (SendMessage ltSample 0 name1000)) [42, 0] =
      SendMessage ltSample 0 name1000 ++ [42] := by
    rw [cStringPastEnd, if_neg hnz, hbuf]
    rfl
  have hres : HandleClientPastEnd (.delivered (SendMessage ltSample 0 name1000)) true
      [42, 0] [] =
      ⟨(SendMessage ltSample 0 name1000 ++ [42]) ++ [10], none, true⟩ := by
    rw [handleClientPastEnd_delivered, if_pos rfl, hcs, List.nil_append]
  rw [hres]
  intro heq
  have hlog := congrArg (fun r : HandlerResult => r.log.length) heq
  simp only [List.length_append, List.length_singleton] at hlog
  omega

/-- C1 (amended): a valid heartbeat message strictly shorter than the
1024-byte buffer — so its NUL terminator fits — that arrives in one read
round-trips byte-for-byte from `send` to the log append, whatever bytes
sit past the buffer, and the handler appends exactly one line: the
received bytes followed by a newline.  (At exactly 1024 bytes the buffer
is unterminated and the logged line may include bytes read past the
array.) -/
theorem claim_C1 (lt : Nat → Tm) (t : Nat) (name residue log : List Nat)
    (hname : ValidName name)
    (hlen : (SendMessage lt t name).length < BUFFER_SIZE) :
    HandleClientPastEnd (.delivered (SendMessage lt t name)) true residue log =
      ⟨log ++ SendMessage lt t name ++ [10], none, true⟩ ∧
    HandleClient (.delivered (SendMessage lt t name)) true log =
      ⟨log ++ SendMessage lt t name ++ [10], none, true⟩ ∧
    (SendMessage lt t name).count 10 = 0 ∧
    (log ++ SendMessage lt t name ++ [10]).count 10 = log.count 10 + 1 := by
  have hbytes := sendMessage_mem lt t name hname
  have hz : ∀ b ∈ SendMessage lt t name, b ≠ 0 := by
    intro b hb
    have := hbytes b hb
    omega
  have hml : (SendMessage lt t name).count 10 = 0 := by
    rw [List.count_eq_zero]
    intro hmem
    have := hbytes 10 hmem
    omega
  have hplain : HandleClient (.delivered (SendMessage lt t name)) true log =
      ⟨log ++ SendMessage lt t name ++ [10], none, true⟩ := by
    rw [handleClient_delivered, if_pos rfl,
      asCString_bufferAfterRead _ (Nat.le_of_lt hlen) hz]
  refine ⟨?_, hplain, hml, ?_⟩
  · rw [handleClientPastEnd_eq_handleClient _ residue _ true
      (zero_mem_bufferAfterRead _ hlen), hplain]
  · rw [List.count_append, List.count_append, hml]
    rfl

theorem claim_C1_witness :
    (ValidName [65] ∧ (SendMessage ltSample 0 [65]).length < BUFFER_SIZE) ∧
    (HandleClientPastEnd (.delivered (SendMessage ltSample 0 [65])) true [42, 0] [] =
        ⟨[] ++ SendMessage ltSample 0 [65] ++ [10], none, true⟩ ∧
      HandleClient (.delivered (SendMessage ltSample 0 [65])) true [] =
        ⟨[] ++ SendMessage ltSample 0 [65] ++ [10], none, true⟩ ∧
      (SendMessage ltSample 0 [65]).count 10 = 0 ∧
      ([] ++ SendMessage ltSample 0 [65] ++ [10]).count 10 = ([] : List Nat).count 10 + 1) :=
  ⟨⟨by decide, by decide⟩, claim_C1 ltSample 0 [65] [42, 0] [] (by decide) (by decide)⟩

set_option maxHeartbeats 1000000 in
/-- C6: the client's timestamp is rendered as `YYYY-MM-DD HH:MM:SS.mmm`;
the three milliseconds digits are zero-padded and decode to `t % 1000`,
the sub-second remainder of the same clock instant `t` whose seconds
`t / 1000` feed the `HH:MM:SS` part (the seconds field decodes to the
`sec` of `localtime (t / 1000)`) — no drift between the two parts. -/
theorem claim_C6 (lt : Nat → Tm) (t : Nat) (hv : ValidTm (lt (t / 1000))) :
    matchesShape (GetCurrentTimestamp lt t) = true ∧
    (GetCurrentTimestamp lt t).drop 20 = pad 3 (t % 1000) ∧
    decodeDigits ((GetCurrentTimestamp lt t).drop 20) = t % 1000 ∧
    decodeDigits (((GetCurrentTimestamp lt t).take 19).drop 17) = (lt (t / 1000)).sec := by
  obtain ⟨hy1, hy2, hmo1, hmo2, hd1, hd2, hh, hmi, hs⟩ := hv
  have hYlen : (pad 4 (lt (t / 1000)).year).length = 4 :=
    pad_length 4 _ (by norm_num; omega) (by norm_num)
  have hMolen : (pad 2 (lt (t / 1000)).mon).length = 2 :=
    pad_length 2 _ (by norm_num; omega) (by norm_num)
  have hDlen : (pad 2 (lt (t / 1000)).mday).length = 2 :=
    pad_length 2 _ (by norm_num; omega) (by norm_num)
  have hHlen : (pad 2 (lt (t / 1000)).hour).length = 2 :=
    pad_length 2 _ (by norm_num; omega) (by norm_num)
  have hMilen : (pad 2 (lt (t / 1000)).min).length = 2 :=
    pad_length 2 _ (by norm_num; omega) (by norm_num)
  have hSlen : (pad 2 (lt (t / 1000)).sec).length = 2 :=
    pad_length 2 _ (by norm_num; omega) (by norm_num)
  have hMslen : (pad 3 (t % 1000)).length = 3 :=
    pad_length 3 _ (by have := Nat.mod_lt t (show 0 < 1000 by norm_num); norm_num; omega)
      (by norm_num)
  have hF19 : (formatTm (lt (t / 1000))).length = 19 := by
    rw [formatTm]
    simp only [List.length_append, hYlen, hMolen, hDlen, hHlen, hMilen, hSlen,
      List.length_singleton]
  have hslen : (GetCurrentTimestamp lt t).length = 23 := by
    rw [GetCurrentTimestamp]
    simp only [List.length_append, hF19, hMslen, List.length_singleton]
  have hdrop : (GetCurrentTimestamp lt t).drop 20 = pad 3 (t % 1000) := by
    have heq : GetCurrentTimestamp lt t =
        (formatTm (lt (t / 1000)) ++ [46]) ++ pad 3 (t % 1000) := by
      rw [GetCurrentTimestamp, List.append_assoc]
    rw [heq]
    exact List.drop_left' (by rw [List.length_append, hF19]; rfl)
  refine ⟨?_, hdrop, ?_, ?_⟩
  · rw [matchesShape, Bool.and_eq_true]
    refine ⟨by simp [hslen], ?_⟩
    rw [shapeCodes, GetCurrentTimestamp, formatTm]
    simp only [List.append_assoc]
    rw [zip_all_digit_segment 4 _ _ _ hYlen (pad_mem _ _)]
    rw [zip_all_sep_segment 45 _ _ (by decide)]
    rw [zip_all_digit_segment 2 _ _ _ hMolen (pad_mem _ _)]
    rw [zip_all_sep_segment 45 _ _ (by decide)]
    rw [zip_all_digit_segment 2 _ _ _ hDlen (pad_mem _ _)]
    rw [zip_all_sep_segment 32 _ _ (by decide)]
    rw [zip_all_digit_segment 2 _ _ _ hHlen (pad_mem _ _)]
    rw [zip_all_sep_segment 58 _ _ (by decide)]
    rw [zip_all_digit_segment 2 _ _ _ hMilen (pad_mem _ _)]
    rw [zip_all_sep_segment 58 _ _ (by decide)]
    rw [zip_all_digit_segment 2 _ _ _ hSlen (pad_mem _ _)]
    rw [zip_all_sep_segment 46 _ _ (by decide)]
    exact zip_all_digit_final 3 _ hMslen (pad_mem _ _)
  · rw [hdrop, pad_decode]
  · have htake : (GetCurrentTimestamp lt t).take 19 = formatTm (lt (t / 1000)) := by
      rw [GetCurrentTimestamp, List.append_assoc]
      exact List.take_left' hF19
    rw [htake]
    have hsplit : formatTm (lt (t / 1000)) =
        (pad 4 (lt (t / 1000)).year ++ [45] ++ pad 2 (lt (t / 1000)).mon ++ [45] ++
         pad 2 (lt (t / 1000)).mday ++ [32] ++ pad 2 (lt (t / 1000)).hour ++ [58] ++
         pad 2 (lt (t / 1000)).min ++ [58]) ++ pad 2 (lt (t / 1000)).sec := rfl
    rw [hsplit]
    rw [List.drop_left' (by
      simp only [List.length_append, hYlen, hMolen, hDlen, hHlen, hMilen,
        List.length_singleton])]
    exact pad_decode 2 _

theorem claim_C6_witness :
    ValidTm (ltSample (1234 / 1000)) ∧
    (matchesShape (GetCurrentTimestamp ltSample 1234) = true ∧
      (GetCurrentTimestamp ltSample 1234).drop 20 = pad 3 (1234 % 1000) ∧
      decodeDigits ((GetCurrentTimestamp ltSample 1234).drop 20) = 1234 % 1000 ∧
      decodeDigits (((GetCurrentTimestamp ltSample 1234).take 19).drop 17) =
        (ltSample (1234 / 1000)).sec) :=
  ⟨by decide, claim_C6 ltSample 1234 (by decide)⟩

/-- C7: across all concurrent handlers no two appends interleave their
bytes: in any complete schedule of the byte-level sink model that respects
the lock, the final log is the concatenation of the handlers' whole lines
in some completion order (a permutation of all `n` handlers), and when no
message contains a newline the log holds exactly `n` newline-terminated
lines. -/
theorem claim_C7 (n : Nat) (msgs : Fin n → List Nat) (s : SinkState n)
    (hreach : Relation.ReflTransGen (SinkStep msgs) ⟨fun _ => .idle, []⟩ s)
    (hdone : ∀ i, s.phase i = .done) :
    ∃ order : List (Fin n), order.Perm (List.finRange n) ∧
      s.log = (order.map fun i => msgs i ++ [10]).flatten ∧
      ((∀ i, (10 : Nat) ∉ msgs i) → s.log.count 10 = n) := by
  obtain ⟨order, hnd, hdn, hrest⟩ :=
    sinkInv_reachable msgs hreach (sinkInv_init n msgs)
  rcases hrest with ⟨w, k, hw, -, -, -⟩ | ⟨-, hlog⟩
  · rw [hdone w] at hw
    exact absurd hw (by simp)
  · have hperm : order.Perm (List.finRange n) := by
      rw [List.perm_ext_iff_of_nodup hnd (List.nodup_finRange n)]
      intro a
      simp only [List.mem_finRange, iff_true]
      exact (hdn a).mp (hdone a)
    refine ⟨order, hperm, hlog, ?_⟩
    intro h10
    rw [hlog, List.count_flatten, List.map_map]
    have hcnt : (order.map (List.count 10 ∘ fun i => lineOf (msgs i))) =
        order.map fun _ => 1 := by
      apply List.map_congr_left
      intro a _
      show (lineOf (msgs a)).count 10 = 1
      rw [lineOf, List.count_append, List.count_eq_zero.mpr (h10 a)]
      rfl
    rw [hcnt]
    have hsum : (order.map fun _ => (1 : Nat)).sum = order.length := by simp
    rw [hsum, hperm.length_eq, List.length_finRange]

theorem claim_C7_witness :
    ∃ order : List (Fin 1), order.Perm (List.finRange 1) ∧
      ([104, 10] : List Nat) = (order.map fun i => msgs1 i ++ [10]).flatten ∧
      ((∀ i, (10 : Nat) ∉ msgs1 i) → ([104, 10] : List Nat).count 10 = 1) := by
  have hk0 : 0 < (lineOf (msgs1 0)).length := by decide
  have hk1 : 1 < (lineOf (msgs1 0)).length := by decide
  have h1 : SinkStep msgs1 ⟨fun _ => .idle, []⟩
      ⟨Function.update (fun _ => HPhase.idle) 0 (.writing 0), []⟩ :=
    SinkStep.acquire _ 0 rfl fun j k h => HPhase.noConfusion h
  have h2 : SinkStep msgs1
      ⟨Function.update (fun _ => HPhase.idle) 0 (.writing 0), []⟩
      ⟨Function.update (Function.update (fun _ => HPhase.idle) 0 (.writing 0)) 0
          (.writing 1),
        [104]⟩ :=
    SinkStep.write _ 0 0 hk0 (by decide)
  have h3 : SinkStep msgs1
      ⟨Function.update (Function.update (fun _ => HPhase.idle) 0 (.writing 0)) 0
          (.writing 1),
        [104]⟩
      ⟨Function.update
          (Function.update (Function.update (fun _ => HPhase.idle) 0 (.writing 0)) 0
            (.writing 1)) 0 (.writing 2),
        [104, 10]⟩ :=
    SinkStep.write _ 0 1 hk1 (by decide)
  have h4 : SinkStep msgs1
      ⟨Function.update
          (Function.update (Function.update (fun _ => HPhase.idle) 0 (.writing 0)) 0
            (.writing 1)) 0 (.writing 2),
        [104, 10]⟩
      ⟨Function.update
          (Function.update
            (Function.update (Function.update (fun _ => HPhase.idle) 0 (.writing 0)) 0
              (.writing 1)) 0 (.writing 2)) 0 .done,
        [104, 10]⟩ :=
    SinkStep.release _ 0 (by decide)
  have hreach : Relation.ReflTransGen (SinkStep msgs1) ⟨fun _ => .idle, []⟩
      ⟨Function.update
          (Function.update
            (Function.update (Function.update (fun _ => HPhase.idle) 0 (.writing 0)) 0
              (.writing 1)) 0 (.writing 2)) 0 .done,
        [104, 10]⟩ :=
    Relation.ReflTransGen.head h1 (Relation.ReflTransGen.head h2
      (Relation.ReflTransGen.head h3 (Relation.ReflTransGen.head h4
        Relation.ReflTransGen.refl)))
  exact claim_C7 1 msgs1 _ hreach (by decide)

end Heartbeat
